import Mathlib

/-!
# Shallow embedding of Schedulify's `TimeTable.py`

This file embeds the scheduling core of the repository — the catalog
entities (`Event`, `Group`, `Subject`), the schedule grid (`Table`), and
the combinatorial search (`build_tables`) — as executable Lean
definitions, and proves/refutes the specification claims about them.

Modelling conventions:
* Python object identity is modelled by an explicit `id : Nat` field on
  `Subject`; Python's default `==` on `Subject` (identity) then coincides
  with structural equality, since in Python two references are `==` iff
  they are the same object (same id, hence same fields).
* Python exceptions become an error enumeration `PyError`; a raised
  exception is returned alongside the (possibly partially mutated) table
  state, because Python mutation performed before the raise stays visible.
* Python list indexing `l[i]` (which accepts negative indices and raises
  `IndexError` out of range) is modelled by `pyIdx`.
* Static type checks (`type(x) != T`) are discharged by Lean's types and
  are not represented at runtime.
-/

set_option autoImplicit false

namespace Schedulify

/-- The fixed day codes, in the order of `WEEK_DAYS` in the source. -/
def WEEK_DAYS : List String := ["Sun", "Mon", "Tue", "Wed", "Thu", "Sat"]

/-- The error kinds the embedded code can signal, mirroring the Python
exception classes raised in `TimeTable.py` (`TypeError` is precluded by
the embedding's types). `valueError` covers the group-not-found
`ValueError`; `duplicateSubject` is `DuplicateSubjectError`;
`scheduleError` is `ScheduleError`; `indexError`/`keyError` model the
built-in indexing exceptions. -/
inductive PyError where
  | typeError
  | valueError
  | duplicateSubject
  | scheduleError
  | indexError
  | keyError
deriving DecidableEq, Repr

/-- `Event`: a name together with the `schedule` list of (day, period)
pairs built by zipping the constant day with the periods
(`TimeTable.py` line 40). Periods are arbitrary Python ints. -/
structure Event where
  name : String
  schedule : List (String × Int)
deriving DecidableEq, Repr

/-- The `Event` constructor's runtime validation (`TimeTable.py`
lines 14–40): the day must be a member of `WEEK_DAYS` (`ValueError`
otherwise) and at least one period must be supplied (`ScheduleError`
otherwise). No period is range-checked. -/
def Event.make (name : String) (day : String) (periods : List Int) :
    Except PyError Event :=
  if day ∉ WEEK_DAYS then .error .valueError
  else if periods = [] then .error .scheduleError
  else .ok ⟨name, periods.map (fun p => (day, p))⟩

/-- `Group`: a name and a list of events. -/
structure Group where
  name : String
  events : List Event
deriving DecidableEq, Repr

/-- `Subject`: the `id` field models Python object identity (two
distinct constructor calls yield distinct ids); `name`, `cred_hours`
and `groups` are the constructor-stored fields. -/
structure Subject where
  id : Nat
  name : String
  cred_hours : Int
  groups : List Group
deriving DecidableEq, Repr

/-- A grid cell's occupant: the tuple
`(subject, group.name, event.name)` stored at `TimeTable.py` line 166. -/
def Cell := Subject × String × String
deriving DecidableEq, Repr

/-- `Table`: `rows` is the per-day slot list, positionally aligned with
`WEEK_DAYS` (the dict in the source has exactly those keys, in that
insertion order); `subjects` is `self.subjects`; `cred_hours` is the
`self.cred_hours` attribute. -/
structure Table where
  rows : List (List (Option Cell))
  subjects : List Subject
  cred_hours : Int
deriving DecidableEq, Repr

/-- `Table.__init__(size)`: six rows of `size` empty cells, no
subjects, zero credit hours. -/
def Table.make (size : Nat := 12) : Table :=
  ⟨WEEK_DAYS.map (fun _ => List.replicate size none), [], 0⟩

/-- Python list indexing: `pyIdx n i` is the physical index selected by
`l[i]` on a list of length `n` (`none` when Python raises
`IndexError`). Negative indices count from the end. -/
def pyIdx (n : Nat) (i : Int) : Option Nat :=
  if 0 ≤ i ∧ i < (n : Int) then some i.toNat
  else if -(n : Int) ≤ i ∧ i < 0 then some ((n : Int) + i).toNat
  else none

/-- The physical address `(day index, cell index)` that `self[day][p]`
resolves to, or `none` when Python would raise `KeyError`/`IndexError`. -/
def Table.phys (t : Table) (day : String) (p : Int) : Option (Nat × Nat) :=
  match WEEK_DAYS.findIdx? (· = day) with
  | none => none
  | some di => (pyIdx (t.rows.getD di []).length p).map (fun i => (di, i))

/-- The content of the physical cell `(di, i)` (defaults to empty out of
range; callers guard with `phys`). -/
def Table.cellAt (t : Table) (di i : Nat) : Option Cell :=
  (t.rows.getD di []).getD i none

/-- Reading `self[day][p]`: `KeyError` when `day` is not a dict key,
`IndexError` when the period is out of Python's index range, otherwise
the cell content. -/
def Table.readCell (t : Table) (day : String) (p : Int) :
    Except PyError (Option Cell) :=
  if WEEK_DAYS.findIdx? (· = day) = none then .error .keyError
  else
    match t.phys day p with
    | none => .error .indexError
    | some (di, i) => .ok (t.cellAt di i)

/-- Writing `self[day][p] = c` (no-op out of range; the source only
writes after a successful read of the same cell). -/
def Table.writeCell (t : Table) (day : String) (p : Int) (c : Cell) : Table :=
  match t.phys day p with
  | none => t
  | some (di, i) =>
    { t with rows := t.rows.set di ((t.rows.getD di []).set i (some c)) }

/-- `Table.get_cred_hours` (`TimeTable.py` lines 137–141): reset the
cached field, sum `cred_hours` over `self.subjects`, store and return
the sum. -/
def Table.get_cred_hours (t : Table) : Table × Int :=
  let c := (t.subjects.map Subject.cred_hours).sum
  ({ t with cred_hours := c }, c)

/-- The ordered list of `(day, period, event name)` writes performed by
`add_subject` for the groups named `gname` (`TimeTable.py`
lines 156–166): every group whose name matches contributes all its
events' schedule tuples, in order. -/
def placeList (s : Subject) (gname : String) : List (String × Int × String) :=
  (s.groups.filter (fun g => g.name = gname)).flatMap fun g =>
    g.events.flatMap fun e => e.schedule.map fun dp => (dp.1, dp.2, e.name)

/-- The scan-and-write loop of `add_subject` (`TimeTable.py`
lines 159–166): each target cell is read; an occupant raises
`ScheduleError`; an empty cell is written immediately, before the next
tuple is examined — so earlier writes survive a later raise. -/
def writeAll (s : Subject) (gname : String) :
    Table → List (String × Int × String) → Table × Option PyError
  | t, [] => (t, none)
  | t, (d, p, en) :: rest =>
    match t.readCell d p with
    | .error e => (t, some e)
    | .ok (some _) => (t, some .scheduleError)
    | .ok none => writeAll s gname (t.writeCell d p (s, gname, en)) rest

/-- `Table.add_subject` (`TimeTable.py` lines 144–171): group-name
check (`ValueError`), duplicate check (`DuplicateSubjectError`, by
Python `==`, i.e. identity for `Subject`), then the scan-and-write
loop; on full success the subject is appended and the credit total
recomputed. Returns the (possibly partially mutated) table and the
raised error, if any. -/
def Table.add_subject (t : Table) (s : Subject) (gname : String) :
    Table × Option PyError :=
  if gname ∉ s.groups.map Group.name then (t, some .valueError)
  else if s ∈ t.subjects then (t, some .duplicateSubject)
  else
    match writeAll s gname t (placeList s gname) with
    | (t', some e) => (t', some e)
    | (t', none) =>
      let t2 := { t' with subjects := t'.subjects ++ [s] }
      (({ t2 with cred_hours := (t2.subjects.map Subject.cred_hours).sum }),
        none)

/-- The inner loop of `Table.merge` over one day (`TimeTable.py`
lines 177–180): for each `item` of the other grid's row `value` (in
order), the source computes `value.index(item)` — the index of the
FIRST occurrence of an equal item — reads the own row there
(`ScheduleError` if occupied, `IndexError` if out of range) and writes
`item` there. -/
def mergeRow (value : List (Option Cell)) :
    List (Option Cell) → List (Option Cell) → List (Option Cell) × Option PyError
  | selfRow, [] => (selfRow, none)
  | selfRow, item :: rest =>
    let idx := value.indexOf item
    match selfRow.get? idx with
    | none => (selfRow, some .indexError)
    | some (some _) => (selfRow, some .scheduleError)
    | some none => mergeRow value (selfRow.set idx item) rest

/-- The per-day loop of `Table.merge` over `other.items()` (dict
insertion order = `WEEK_DAYS` order, positionally aligned with
`self`'s rows). -/
def mergeRows : List (List (Option Cell)) → Nat → List (List (Option Cell)) →
    List (List (Option Cell)) × Option PyError
  | selfRows, _, [] => (selfRows, none)
  | selfRows, di, value :: rest =>
    match mergeRow value (selfRows.getD di []) value with
    | (row', none) => mergeRows (selfRows.set di row') (di + 1) rest
    | (row', some e) => (selfRows.set di row', some e)

/-- `Table.merge` (`TimeTable.py` lines 173–180). -/
def Table.merge (t other : Table) : Table × Option PyError :=
  match mergeRows t.rows 0 other.rows with
  | (rows', e) => ({ t with rows := rows' }, e)

/-! ## The combinatorial search: `build_tables` -/

/-- Stable insertion for `stableSort`: `x` goes after every element `y`
of the already-sorted list with `le y x`, so elements with equal keys
keep their original relative order — as Python's stable `sort` does. -/
def insertSorted {α : Type} (le : α → α → Bool) (x : α) : List α → List α
  | [] => [x]
  | y :: ys => if le y x then y :: insertSorted le x ys else x :: y :: ys

/-- A stable ascending sort, modelling Python's `list.sort`/`sorted`. -/
def stableSort {α : Type} (le : α → α → Bool) (l : List α) : List α :=
  l.foldl (fun acc x => insertSorted le x acc) []

/-- Lexicographic `≤` on lists of strings, modelling Python tuple
comparison of string tuples (a strict prefix compares smaller). -/
def strListLe : List String → List String → Bool
  | [], _ => true
  | _ :: _, [] => false
  | a :: as, b :: bs => if a < b then true else if b < a then false else strListLe as bs

/-- `itertools.combinations(l, k)`: all length-`k` sublists of `l`, in
the lexicographic-by-position order `itertools` emits. -/
def combinations {α : Type} : Nat → List α → List (List α)
  | 0, _ => [[]]
  | _ + 1, [] => []
  | k + 1, x :: xs =>
    ((combinations k xs).map (fun c => x :: c)) ++ combinations (k + 1) xs

/-- Python's `range(lo, hi + 1)` over integers. -/
def intRange (lo hi : Int) : List Int :=
  (List.range (hi + 1 - lo).toNat).map (fun (n : Nat) => lo + (n : Int))

/-- Step 1 of `build_tables` (`TimeTable.py` line 236): the priority
subjects actually present in the catalog; membership is Python `in`,
i.e. identity for `Subject`. Priority subjects absent from the catalog
are dropped silently. -/
def actualPriority (priority : Option (List Subject)) (catalog : List Subject) :
    List Subject :=
  (priority.getD []).filter (fun s => s ∈ catalog)

/-- Step 1 of `build_tables` (`TimeTable.py` line 237): the remainder
of the catalog. -/
def nonPriorityAvailable (priority : Option (List Subject))
    (catalog : List Subject) : List Subject :=
  catalog.filter (fun s => s ∉ actualPriority priority catalog)

/-- Steps 2–3 of `build_tables` (`TimeTable.py` lines 239–253): the
unsorted list `all_candidate_subject_sets` — for each `k` in
`range(max(0, min_subjects - p), max_subjects - p + 1)` (the `k < 0`
guard of line 247 kept verbatim), each `k`-combination of non-priority
subjects is prefixed with the full retained priority list, and the set
is kept iff its total size lies in `[min_subjects, max_subjects]`. -/
def candidateSets (catalog : List Subject) (minSubjects maxSubjects : Int)
    (priority : Option (List Subject)) : List (List Subject) :=
  (intRange
      (max 0 (minSubjects - ((actualPriority priority catalog).length : Int)))
      (maxSubjects - ((actualPriority priority catalog).length : Int))).flatMap
    fun k =>
      if k < 0 then []
      else
        (combinations k.toNat (nonPriorityAvailable priority catalog)).filterMap
          fun combo =>
            if minSubjects ≤
                  ((actualPriority priority catalog ++ combo).length : Int) ∧
                ((actualPriority priority catalog ++ combo).length : Int) ≤
                  maxSubjects
            then some (actualPriority priority catalog ++ combo) else none

/-- Outcome of the per-subject group loop in `build_tables`. -/
inductive AddOutcome where
  | added
  | notAdded
  | aborted
deriving DecidableEq, Repr

/-- The inner group loop of `build_tables` (`TimeTable.py`
lines 277–296): try each group in order on the current (mutable!)
table; `ScheduleError` means try the next group, `DuplicateSubjectError`
counts as added, any other error aborts the candidate set. -/
def tryGroups (s : Subject) : Table → List Group → Table × AddOutcome
  | t, [] => (t, .notAdded)
  | t, g :: gs =>
    match t.add_subject s g.name with
    | (t', none) => (t', .added)
    | (t', some .scheduleError) => tryGroups s t' gs
    | (t', some .duplicateSubject) => (t', .added)
    | (t', some _) => (t', .aborted)

/-- The subject loop of `build_tables` (`TimeTable.py` lines 271–302):
subjects in ascending name order, groups in ascending name order; a
subject with no workable group (or an unexpected error) marks the
whole candidate set as conflicting. Returns the built table and the
`conflict_found_for_set` flag. -/
def trySubjects : Table → List Subject → Table × Bool
  | t, [] => (t, false)
  | t, s :: rest =>
    match tryGroups s t (stableSort (fun a b => a.name ≤ b.name) s.groups) with
    | (t', .added) => trySubjects t' rest
    | (t', .notAdded) => (t', true)
    | (t', .aborted) => (t', true)

/-- The main loop of `build_tables` (`TimeTable.py` lines 260–310):
stop once enough tables were accepted; otherwise build each candidate
set on a fresh default-size table and keep it iff it schedules without
conflict and its credit total lies in `[minCred, maxCred]`. -/
def buildLoop (minCred maxCred : Int) (num : Int) :
    List Table → List (List Subject) → List Table
  | acc, [] => acc
  | acc, cset :: rest =>
    if num ≤ (acc.length : Int) then acc
    else
      match trySubjects (Table.make 12)
          (stableSort (fun a b => a.name ≤ b.name) cset) with
      | (_, true) => buildLoop minCred maxCred num acc rest
      | (t, false) =>
        let (t2, ch) := t.get_cred_hours
        if minCred ≤ ch ∧ ch ≤ maxCred
        then buildLoop minCred maxCred num (acc ++ [t2]) rest
        else buildLoop minCred maxCred num acc rest

/-- `build_tables` (`TimeTable.py` lines 206–315): candidate sets are
generated, sorted by the tuple of their sorted member names
(line 257), then tried in order. -/
def build_tables (catalog : List Subject) (minSubjects maxSubjects : Int)
    (minCred maxCred : Int) (priority : Option (List Subject) := none)
    (num : Int := 1) : List Table :=
  let sets := stableSort
    (fun a b => strListLe
      (stableSort (fun x y => x ≤ y) (a.map Subject.name))
      (stableSort (fun x y => x ≤ y) (b.map Subject.name)))
    (candidateSets catalog minSubjects maxSubjects priority)
  buildLoop minCred maxCred num [] sets

/-! ## Concrete catalog instances used by witnesses and counterexamples -/

/-- A two-period Sunday event (periods 0 and 1). -/
def evA : Event := ⟨"EA", [("Sun", 0), ("Sun", 1)]⟩

/-- A group holding `evA`. -/
def grpA : Group := ⟨"g", [evA]⟩

/-- Subject `A`: 3 credit hours, one group `g` with the two-period event. -/
def subA : Subject := ⟨1, "A", 3, [grpA]⟩

/-- A one-period Sunday event at period 1. -/
def evB : Event := ⟨"EB", [("Sun", 1)]⟩

/-- A group holding `evB`. -/
def grpB : Group := ⟨"g", [evB]⟩

/-- Subject `B`: 2 credit hours, one group `g` with `evB`. -/
def subB : Subject := ⟨2, "B", 2, [grpB]⟩

/-- A size-2 table with `subB` committed, occupying cell (Sun, 1). -/
def tB : Table := ((Table.make 2).add_subject subB "g").1

/-- Subject `C`: one group with a single event at (Sun, 0). -/
def subC : Subject := ⟨3, "C", 1, [⟨"g", [⟨"EC", [("Sun", 0)]⟩]⟩]⟩

/-- A size-2 table with `subC` committed, occupying cell (Sun, 0). -/
def tC : Table := ((Table.make 2).add_subject subC "g").1

/-- Subject `N`: one group with a single event at the negative period −1. -/
def subN : Subject := ⟨4, "N", 1, [⟨"g", [⟨"EN", [("Sun", -1)]⟩]⟩]⟩

/-- A shared group at (Sun, 0) for the value-equal subject pair. -/
def grpM : Group := ⟨"g1", [⟨"EM", [("Sun", 0)]⟩]⟩

/-- First of two value-equal subjects (identity 11). -/
def subM1 : Subject := ⟨11, "M", 3, [grpM]⟩

/-- Second value-equal subject: identical name, credit hours and groups
as `subM1`, but a distinct object (identity 12). -/
def subM2 : Subject := ⟨12, "M", 3, [grpM]⟩

/-- A size-1 table with `subM1` committed, occupying cell (Sun, 0). -/
def tM1 : Table := ((Table.make 1).add_subject subM1 "g1").1

/-! ## Supporting lemmas -/

/-- Python indexing accepts exactly the indices in `[-n, n)`. -/
theorem pyIdx_some_bounds {n : Nat} {p : Int} {i : Nat}
    (h : pyIdx n p = some i) : -(n : Int) ≤ p ∧ p < (n : Int) := by
  unfold pyIdx at h
  split at h
  · omega
  · split at h
    · omega
    · exact absurd h (by simp)

/-- `getD` after `set` at the same in-range index yields the new value. -/
theorem getD_set_self {α : Type} {l : List α} {i : Nat} {a d : α}
    (h : i < l.length) : (l.set i a).getD i d = a := by
  rw [List.getD_eq_getElem?_getD, List.getElem?_set_self h, Option.getD_some]

/-- `getD` after `set` at a different index is unchanged. -/
theorem getD_set_ne {α : Type} {l : List α} {i j : Nat} {a d : α}
    (h : i ≠ j) : (l.set i a).getD j d = l.getD j d := by
  rw [List.getD_eq_getElem?_getD, List.getElem?_set_ne h,
    ← List.getD_eq_getElem?_getD]

/-- Replacing a row by an equal-length row preserves all `getD` row
lengths. -/
theorem length_getD_set {α : Type} (l : List (List α)) (di dj : Nat)
    (r' : List α) (hlen : r'.length = (l.getD di []).length) :
    ((l.set di r').getD dj []).length = (l.getD dj []).length := by
  by_cases hdn : di = dj
  · subst hdn
    by_cases hlt : di < l.length
    · rw [getD_set_self hlt, hlen]
    · rw [List.set_eq_of_length_le (by omega)]
  · rw [getD_set_ne hdn]

/-- Unfolding a defined physical address into its two lookups. -/
theorem Table.phys_some {t : Table} {d : String} {p : Int} {di i : Nat}
    (h : t.phys d p = some (di, i)) :
    WEEK_DAYS.findIdx? (· = d) = some di ∧
      pyIdx (t.rows.getD di []).length p = some i := by
  unfold Table.phys at h
  cases hfi : WEEK_DAYS.findIdx? (· = d) with
  | none => simp [hfi] at h
  | some dj =>
    simp only [hfi, Option.map_eq_some'] at h
    obtain ⟨j, hpi, hji⟩ := h
    rw [Prod.mk.injEq] at hji
    obtain ⟨h1, h2⟩ := hji
    subst h1; subst h2
    refine ⟨rfl, ?_⟩
    simpa [List.getD_eq_getElem?_getD] using hpi

/-- A defined physical address yields a successful cell read. -/
theorem Table.phys_readCell {t : Table} {d : String} {p : Int} {di i : Nat}
    (h : t.phys d p = some (di, i)) :
    t.readCell d p = .ok (t.cellAt di i) := by
  obtain ⟨hfi, _⟩ := Table.phys_some h
  unfold Table.readCell
  rw [h, hfi]
  simp

/-- A successful cell read comes from a defined physical address. -/
theorem Table.readCell_ok {t : Table} {d : String} {p : Int} {oc : Option Cell}
    (h : t.readCell d p = .ok oc) :
    ∃ di i, t.phys d p = some (di, i) ∧ t.cellAt di i = oc := by
  unfold Table.readCell at h
  split at h
  · exact absurd h (by simp)
  · split at h
    · exact absurd h (by simp)
    · next di i heq =>
      exact ⟨di, i, heq, by simpa using h⟩

/-- `writeCell` never touches `subjects` or `cred_hours`. -/
theorem Table.writeCell_fields (t : Table) (d : String) (p : Int) (c : Cell) :
    (t.writeCell d p c).subjects = t.subjects ∧
      (t.writeCell d p c).cred_hours = t.cred_hours := by
  unfold Table.writeCell
  split
  · exact ⟨rfl, rfl⟩
  · exact ⟨rfl, rfl⟩

/-- Two tables whose rows have the same `getD` lengths resolve every
(day, period) to the same physical address. -/
theorem Table.phys_congr {t t' : Table}
    (h : ∀ dj, (t'.rows.getD dj []).length = (t.rows.getD dj []).length)
    (d : String) (p : Int) : t'.phys d p = t.phys d p := by
  unfold Table.phys
  cases hfi : WEEK_DAYS.findIdx? (· = d) with
  | none => rfl
  | some dj =>
    dsimp only
    rw [h dj]

/-- `writeCell` preserves every row length, hence all physical
addresses. -/
theorem Table.writeCell_phys (t : Table) (d : String) (p : Int) (c : Cell)
    (d' : String) (p' : Int) :
    (t.writeCell d p c).phys d' p' = t.phys d' p' := by
  unfold Table.writeCell
  cases hph : t.phys d p with
  | none => rfl
  | some dii =>
    obtain ⟨di, i⟩ := dii
    refine Table.phys_congr (fun dj => ?_) d' p'
    exact length_getD_set _ _ _ _ (List.length_set _ _ _)

/-- In-range facts packed inside a defined physical address. -/
theorem Table.phys_lt {t : Table} {d : String} {p : Int} {di i : Nat}
    (h : t.phys d p = some (di, i)) :
    di < t.rows.length ∧ i < (t.rows.getD di []).length := by
  obtain ⟨hfi, hpi⟩ := Table.phys_some h
  have hilt : i < (t.rows.getD di []).length := by
    unfold pyIdx at hpi
    split at hpi
    · simp only [Option.some.injEq] at hpi; omega
    · split at hpi
      · simp only [Option.some.injEq] at hpi; omega
      · exact absurd hpi (by simp)
  refine ⟨?_, hilt⟩
  by_contra hge
  rw [List.getD_eq_default _ _ (by omega)] at hilt
  simp at hilt

/-- The pointwise effect of `writeCell` on cells: the target physical
cell gets the new occupant, every other cell is untouched. -/
theorem Table.writeCell_cellAt (t : Table) (d : String) (p : Int) (c : Cell)
    (di i : Nat) :
    (t.writeCell d p c).cellAt di i =
      if t.phys d p = some (di, i) then some c else t.cellAt di i := by
  unfold Table.writeCell
  cases hph : t.phys d p with
  | none => simp [hph]
  | some dii =>
    obtain ⟨di0, i0⟩ := dii
    obtain ⟨hrlt, hilt⟩ := Table.phys_lt hph
    dsimp only
    unfold Table.cellAt
    by_cases hdn : di0 = di
    · subst hdn
      rw [getD_set_self hrlt]
      by_cases hin : i0 = i
      · subst hin
        rw [getD_set_self hilt, if_pos rfl]
      · rw [getD_set_ne hin, if_neg (by simp [hin])]
    · rw [getD_set_ne hdn, if_neg (by simp [hdn])]

/-- A failed cell read is a `KeyError` or an `IndexError`. -/
theorem Table.readCell_error {t : Table} {d : String} {p : Int} {e : PyError}
    (h : t.readCell d p = .error e) : e = .keyError ∨ e = .indexError := by
  unfold Table.readCell at h
  split at h
  · exact Or.inl (by injection h with h'; exact h'.symm)
  · split at h
    · exact Or.inr (by injection h with h'; exact h'.symm)
    · exact absurd h (by simp)

/-- The scan-and-write loop never touches `subjects` or `cred_hours`. -/
theorem writeAll_fields (s : Subject) (gname : String) :
    ∀ (l : List (String × Int × String)) (t : Table),
      (writeAll s gname t l).1.subjects = t.subjects ∧
      (writeAll s gname t l).1.cred_hours = t.cred_hours := by
  intro l
  induction l with
  | nil => intro t; exact ⟨rfl, rfl⟩
  | cons hd rest ih =>
    intro t
    obtain ⟨d, p, en⟩ := hd
    unfold writeAll
    cases hrc : t.readCell d p with
    | error e => exact ⟨rfl, rfl⟩
    | ok oc =>
      cases oc with
      | some c => exact ⟨rfl, rfl⟩
      | none =>
        obtain ⟨h1, h2⟩ := ih (t.writeCell d p (s, gname, en))
        obtain ⟨f1, f2⟩ := Table.writeCell_fields t d p (s, gname, en)
        exact ⟨h1.trans f1, h2.trans f2⟩

/-- The scan-and-write loop preserves all physical addresses. -/
theorem writeAll_phys (s : Subject) (gname : String) :
    ∀ (l : List (String × Int × String)) (t : Table) (d' : String) (p' : Int),
      (writeAll s gname t l).1.phys d' p' = t.phys d' p' := by
  intro l
  induction l with
  | nil => intro t d' p'; rfl
  | cons hd rest ih =>
    intro t d' p'
    obtain ⟨d, p, en⟩ := hd
    unfold writeAll
    cases hrc : t.readCell d p with
    | error e => rfl
    | ok oc =>
      cases oc with
      | some c => rfl
      | none =>
        exact (ih (t.writeCell d p (s, gname, en)) d' p').trans
          (Table.writeCell_phys t d p (s, gname, en) d' p')

/-- The errors the scan-and-write loop can raise: a slot conflict or a
bad index/day — never a duplicate-subject error. -/
theorem writeAll_error (s : Subject) (gname : String) :
    ∀ (l : List (String × Int × String)) (t : Table) (e : PyError),
      (writeAll s gname t l).2 = some e →
      e = .scheduleError ∨ e = .indexError ∨ e = .keyError := by
  intro l
  induction l with
  | nil => intro t e h; simp [writeAll] at h
  | cons hd rest ih =>
    intro t e h
    obtain ⟨d, p, en⟩ := hd
    unfold writeAll at h
    split at h
    · next e' heq =>
      have h2 : some e' = some e := h
      injection h2 with h3
      subst h3
      rcases Table.readCell_error heq with h' | h'
      · exact Or.inr (Or.inr h')
      · exact Or.inr (Or.inl h')
    · next c heq =>
      have h2 : some PyError.scheduleError = some e := h
      injection h2 with h3
      exact Or.inl h3.symm
    · next heq => exact ih (t.writeCell d p (s, gname, en)) e h

/-- Every cell targeted by a successful scan-and-write run had a
defined physical address and was empty at the start of the run. -/
theorem writeAll_ok_start_empty (s : Subject) (gname : String) :
    ∀ (l : List (String × Int × String)) (t t' : Table),
      writeAll s gname t l = (t', none) →
      ∀ trip ∈ l, ∃ di i, t.phys trip.1 trip.2.1 = some (di, i) ∧
        t.cellAt di i = none := by
  intro l
  induction l with
  | nil => intro t t' _ trip htrip; simp at htrip
  | cons hd rest ih =>
    intro t t' h trip htrip
    obtain ⟨d, p, en⟩ := hd
    unfold writeAll at h
    split at h
    · next e' heq =>
      have h2 : (some e' : Option PyError) = none := congrArg Prod.snd h
      simp at h2
    · next c heq =>
      have h2 : (some PyError.scheduleError : Option PyError) = none :=
        congrArg Prod.snd h
      simp at h2
    · next heq =>
      obtain ⟨di, i, hphys, hcell⟩ := Table.readCell_ok heq
      rcases List.mem_cons.mp htrip with rfl | htrip'
      · exact ⟨di, i, hphys, hcell⟩
      · obtain ⟨dj, j, hphys1, hcell1⟩ :=
          ih (t.writeCell d p (s, gname, en)) t' h trip htrip'
        have hc := Table.writeCell_cellAt t d p (s, gname, en) dj j
        rw [hcell1] at hc
        split at hc
        · exact absurd hc (by simp)
        · exact ⟨dj, j,
            by rwa [Table.writeCell_phys] at hphys1, hc.symm⟩

/-- The full postcondition of a successful scan-and-write run: every
targeted cell holds the new `(subject, group name, event name)` record
afterwards, and every cell whose physical address is targeted by no
tuple of the run is untouched. -/
theorem writeAll_ok_spec (s : Subject) (gname : String) :
    ∀ (l : List (String × Int × String)) (t t' : Table),
      writeAll s gname t l = (t', none) →
      (∀ di i, (∀ trip ∈ l, t.phys trip.1 trip.2.1 ≠ some (di, i)) →
        t'.cellAt di i = t.cellAt di i) ∧
      (∀ trip ∈ l, ∃ di i, t.phys trip.1 trip.2.1 = some (di, i) ∧
        t'.cellAt di i = some (s, gname, trip.2.2)) := by
  intro l
  induction l with
  | nil =>
    intro t t' h
    have ht : t = t' := by simpa [writeAll, Prod.ext_iff] using h
    subst ht
    exact ⟨fun _ _ _ => rfl, by simp⟩
  | cons hd rest ih =>
    intro t t' h
    obtain ⟨d, p, en⟩ := hd
    unfold writeAll at h
    split at h
    · next e' heq =>
      have h2 : (some e' : Option PyError) = none := congrArg Prod.snd h
      simp at h2
    · next c heq =>
      have h2 : (some PyError.scheduleError : Option PyError) = none :=
        congrArg Prod.snd h
      simp at h2
    · next heq =>
        obtain ⟨di0, i0, hph0, hc0⟩ := Table.readCell_ok heq
        obtain ⟨ihframe, ihwrite⟩ := ih (t.writeCell d p (s, gname, en)) t' h
        constructor
        · intro di i havoid
          have hne_head : t.phys d p ≠ some (di, i) :=
            havoid (d, p, en) (List.mem_cons_self _ _)
          have h1 : t'.cellAt di i =
              (t.writeCell d p (s, gname, en)).cellAt di i :=
            ihframe di i (fun trip htrip => by
              rw [Table.writeCell_phys]
              exact havoid trip (List.mem_cons_of_mem _ htrip))
          rw [h1, Table.writeCell_cellAt, if_neg hne_head]
        · intro trip htrip
          rcases List.mem_cons.mp htrip with rfl | htrip'
          · refine ⟨di0, i0, hph0, ?_⟩
            have hw : (t.writeCell d p (s, gname, en)).cellAt di0 i0 =
                some (s, gname, en) := by
              rw [Table.writeCell_cellAt, if_pos hph0]
            have hnotrest : ∀ trip' ∈ rest,
                (t.writeCell d p (s, gname, en)).phys trip'.1 trip'.2.1 ≠
                  some (di0, i0) := by
              intro trip' htr' hcon
              obtain ⟨dj, j, hphys', hcell'⟩ :=
                writeAll_ok_start_empty s gname rest _ t' h trip' htr'
              rw [hphys'] at hcon
              injection hcon with hcon'
              rw [Prod.mk.injEq] at hcon'
              obtain ⟨rfl, rfl⟩ := hcon'
              rw [hw] at hcell'
              exact absurd hcell' (by simp)
            rw [ihframe di0 i0 hnotrest, hw]
          · obtain ⟨dj, j, hphys', hcell'⟩ := ihwrite trip htrip'
            exact ⟨dj, j,
              by rwa [Table.writeCell_phys] at hphys', hcell'⟩

/-- Case analysis on the error of a failed `add_subject` call: a
group-name `ValueError`, a `DuplicateSubjectError` (only when the
subject is already committed), or an error of the scan-and-write
loop. -/
theorem add_subject_some_cases (t : Table) (s : Subject) (gname : String)
    (t' : Table) (e : PyError) (h : t.add_subject s gname = (t', some e)) :
    e = .valueError ∨ (e = .duplicateSubject ∧ s ∈ t.subjects) ∨
      e = .scheduleError ∨ e = .indexError ∨ e = .keyError := by
  unfold Table.add_subject at h
  split at h
  · have h2 : some PyError.valueError = some e := congrArg Prod.snd h
    injection h2 with h3
    exact Or.inl h3.symm
  · split at h
    · next hmem =>
      have h2 : some PyError.duplicateSubject = some e := congrArg Prod.snd h
      injection h2 with h3
      exact Or.inr (Or.inl ⟨h3.symm, hmem⟩)
    · split at h
      · next t'' e'' heq =>
        have h2 : some e'' = some e := congrArg Prod.snd h
        injection h2 with h3
        exact Or.inr (Or.inr
          (h3 ▸ writeAll_error s gname (placeList s gname) t e''
            (by rw [heq])))
      · next t'' heq =>
        have h2 : (none : Option PyError) = some e := congrArg Prod.snd h
        simp at h2

/-! ## Claim theorems -/

/-- C2: placing a subject that is already committed to the grid, with
any of its valid group names, fails with `DuplicateSubject`, and the
returned grid state is exactly the input grid — the duplicate check
(`TimeTable.py` line 152) runs before any cell is touched. -/
theorem add_subject_duplicate_unchanged (t : Table) (s : Subject)
    (gname : String) (hg : gname ∈ s.groups.map Group.name)
    (hs : s ∈ t.subjects) :
    t.add_subject s gname = (t, some .duplicateSubject) := by
  unfold Table.add_subject
  rw [if_neg (not_not_intro hg), if_pos hs]

/-- Witness for C2: `subB` is committed to `tB` and re-placing it with
its valid group name `"g"` yields `DuplicateSubject` with the grid
unchanged. -/
theorem add_subject_duplicate_unchanged_witness :
    tB.add_subject subB "g" = (tB, some .duplicateSubject) :=
  add_subject_duplicate_unchanged tB subB "g" (by decide) (by decide)

/-- C4: `get_cred_hours` returns exactly the sum of `cred_hours` over
the subjects in `placed_subjects` (`self.subjects`), and calling it
again without intervening placements returns the same value (and the
same grid state). -/
theorem get_cred_hours_spec (t : Table) :
    (t.get_cred_hours).2 = (t.subjects.map Subject.cred_hours).sum ∧
      ((t.get_cred_hours).1.get_cred_hours).2 = (t.get_cred_hours).2 ∧
      ((t.get_cred_hours).1.get_cred_hours).1 = (t.get_cred_hours).1 :=
  ⟨rfl, rfl, rfl⟩

/-- C9: any failing `add_subject` call — group not found, duplicate
subject, or a conflict/index error raised during the scan — leaves
`self.subjects` and the `cred_hours` attribute unchanged, so the
reported credit total is also unchanged, even when the failed call has
already written grid cells. -/
theorem add_subject_error_preserves (t : Table) (s : Subject)
    (gname : String) (t' : Table) (e : PyError)
    (h : t.add_subject s gname = (t', some e)) :
    t'.subjects = t.subjects ∧ t'.cred_hours = t.cred_hours ∧
      (t'.get_cred_hours).2 = (t.get_cred_hours).2 := by
  unfold Table.add_subject at h
  split at h
  · have h1 : t = t' := congrArg Prod.fst h
    subst h1
    exact ⟨rfl, rfl, rfl⟩
  · split at h
    · have h1 : t = t' := congrArg Prod.fst h
      subst h1
      exact ⟨rfl, rfl, rfl⟩
    · split at h
      · next t'' e'' heq =>
        have h1 : t'' = t' := congrArg Prod.fst h
        obtain ⟨hs', hc'⟩ := writeAll_fields s gname (placeList s gname) t
        rw [heq] at hs' hc'
        subst h1
        have hs2 : t''.subjects = t.subjects := hs'
        have hc2 : t''.cred_hours = t.cred_hours := hc'
        refine ⟨hs2, hc2, ?_⟩
        unfold Table.get_cred_hours
        simp [hs2]
      · next t'' heq =>
        have h2 : (none : Option PyError) = some e := congrArg Prod.snd h
        simp at h2

/-- Witness for C9: the conflicting call `tB.add_subject subA "g"`
fails, and the subject list and credit totals are untouched. -/
theorem add_subject_error_preserves_witness :
    (tB.add_subject subA "g").1.subjects = tB.subjects ∧
      (tB.add_subject subA "g").1.cred_hours = tB.cred_hours ∧
      ((tB.add_subject subA "g").1.get_cred_hours).2 =
        (tB.get_cred_hours).2 :=
  add_subject_error_preserves tB subA "g" (tB.add_subject subA "g").1
    PyError.scheduleError (by decide)

/-- C1 (refuted — code bug): `tB` has cell (Sun, 1) occupied and
(Sun, 0) free; placing `subA`, whose chosen group needs both cells,
fails with `ScheduleConflict` but leaves cell (Sun, 0) occupied by
`subA` — the grid is NOT left as it was before the failed call, because
the source writes each cell during the scan (`TimeTable.py` line 166)
and raises on the later conflict with no rollback. -/
theorem add_subject_partial_commit :
    (tB.add_subject subA "g").2 = some PyError.scheduleError ∧
      tB.cellAt 0 0 = none ∧
      (tB.add_subject subA "g").1.cellAt 0 0 = some (subA, "g", "EA") := by
  decide

/-- C7 (refuted — code bug): `tC` occupies cell (Sun, 0); merging a
completely empty grid into it raises `ScheduleConflict` although no
cell is occupied in both grids, because `TimeTable.py` line 178 uses
`value.index(item)` — the index of the first EQUAL item — instead of
the item's own position, so every empty cell of the other grid is
checked against position 0. -/
theorem merge_spurious_conflict :
    (tC.merge (Table.make 2)).2 = some PyError.scheduleError ∧
      ((Table.make 2).rows.all
        (fun r => r.all (fun c => decide (c = none)))) = true := by
  decide

/-- C8 (refuted at the stated strength): a group event with the
negative period −1 placed into an empty size-2 grid does NOT fail —
the call succeeds and silently occupies the last cell (index 1), by
Python's negative-index semantics. -/
theorem place_negative_period_silent :
    ((Table.make 2).add_subject subN "g").2 = none ∧
      ((Table.make 2).add_subject subN "g").1.cellAt 0 1 =
        some (subN, "g", "EN") ∧
      (Table.make 2).cellAt 0 1 = none := by
  decide

/-- C10 (refuted at the stated strength): `subM1` and `subM2` are
value-equal (same name, credit hours, groups) but distinct objects;
placing the second after the first raises `ScheduleConflict` — not
`DuplicateSubject` — and the second subject is NOT committed, because
their shared group's event cells collide. -/
theorem value_equal_subjects_conflict :
    subM1.name = subM2.name ∧ subM1.cred_hours = subM2.cred_hours ∧
      subM1.groups = subM2.groups ∧ subM1 ≠ subM2 ∧
      (tM1.add_subject subM2 "g1").2 = some PyError.scheduleError ∧
      (tM1.add_subject subM2 "g1").1.subjects = [subM1] := by
  decide

/-- C3: after a successful `add_subject` call choosing the (unique)
group named `gname`, every (day, period) cell listed in that group's
events holds exactly the occupant record `(subject, group name, event
name)`, and no cell whose physical address is outside those placements
is altered. -/
theorem add_subject_success_cells (t : Table) (s : Subject) (gname : String)
    (g : Group) (t' : Table)
    (hg : s.groups.filter (fun gr => gr.name = gname) = [g])
    (h : t.add_subject s gname = (t', none)) :
    (∀ e ∈ g.events, ∀ dp ∈ e.schedule,
      t'.readCell dp.1 dp.2 = .ok (some (s, gname, e.name))) ∧
    (∀ di i,
      (∀ e ∈ g.events, ∀ dp ∈ e.schedule, t.phys dp.1 dp.2 ≠ some (di, i)) →
      t'.cellAt di i = t.cellAt di i) := by
  unfold Table.add_subject at h
  split at h
  · exact absurd (congrArg Prod.snd h) (by simp)
  · split at h
    · exact absurd (congrArg Prod.snd h) (by simp)
    · split at h
      · next t'' e'' heq =>
        exact absurd (congrArg Prod.snd h) (by simp)
      · next t'' heq =>
        injection h with h1 h2
        have hrows : t'.rows = t''.rows := by rw [← h1]
        have hpl : placeList s gname =
            g.events.flatMap
              (fun e => e.schedule.map (fun dp => (dp.1, dp.2, e.name))) := by
          unfold placeList
          rw [hg]
          simp
        obtain ⟨hframe, hwrite⟩ :=
          writeAll_ok_spec s gname (placeList s gname) t t'' heq
        have hphys' : ∀ d p, t'.phys d p = t.phys d p := by
          intro d p
          have hA : t'.phys d p = t''.phys d p :=
            Table.phys_congr (fun dj => by rw [hrows]) d p
          have hB := writeAll_phys s gname (placeList s gname) t d p
          rw [heq] at hB
          exact hA.trans hB
        have hcellAt' : ∀ di i, t'.cellAt di i = t''.cellAt di i := by
          intro di i
          unfold Table.cellAt
          rw [hrows]
        constructor
        · intro e he dp hdp
          have htrip : (dp.1, dp.2, e.name) ∈ placeList s gname := by
            rw [hpl]
            exact List.mem_flatMap.mpr
              ⟨e, he, List.mem_map.mpr ⟨dp, hdp, rfl⟩⟩
          obtain ⟨di, i, hphys, hcell⟩ := hwrite _ htrip
          have hphys2 : t'.phys dp.1 dp.2 = some (di, i) :=
            (hphys' dp.1 dp.2).trans hphys
          rw [Table.phys_readCell hphys2, hcellAt' di i, hcell]
        · intro di i havoid
          have havoid' : ∀ trip ∈ placeList s gname,
              t.phys trip.1 trip.2.1 ≠ some (di, i) := by
            intro trip htrip
            rw [hpl] at htrip
            obtain ⟨e, he, htrip2⟩ := List.mem_flatMap.mp htrip
            obtain ⟨dp, hdp, rfl⟩ := List.mem_map.mp htrip2
            exact havoid e he dp hdp
          rw [hcellAt' di i, hframe di i havoid']

/-- Witness for C3: successfully placing `subB` on an empty size-2
grid writes its (Sun, 1) cell with `(subB, "g", "EB")`. -/
theorem add_subject_success_cells_witness :
    (Table.make 2).add_subject subB "g" = (tB, none) ∧
      tB.readCell "Sun" 1 = .ok (some (subB, "g", "EB")) :=
  ⟨by decide,
    (add_subject_success_cells (Table.make 2) subB "g" grpB tB (by decide)
      (by decide)).1 evB (by decide) ("Sun", 1) (by decide)⟩

/-- C5: `build_tables` is deterministic — two invocations with equal
catalogs, equal search parameters and no priority list return equal
ordered lists of grids. The embedded search is a pure function: the
candidate sets are sorted by the tuple of their sorted member names,
subjects and groups are tried in ascending name order, and no source
of nondeterminism exists anywhere in the pipeline. -/
theorem build_tables_deterministic (c1 c2 : List Subject)
    (minS maxS minC maxC num : Int) (h : c1 = c2) :
    build_tables c1 minS maxS minC maxC none num =
      build_tables c2 minS maxS minC maxC none num := by
  rw [h]

/-- Witness for C5: the two-subject catalog of the spec's Scenario A. -/
theorem build_tables_deterministic_witness :
    build_tables [subM1, subM2] 1 2 0 10 none 5 =
      build_tables [subM1, subM2] 1 2 0 10 none 5 :=
  build_tables_deterministic [subM1, subM2] [subM1, subM2] 1 2 0 10 5 rfl

/-- `intRange lo hi` (Python `range(lo, hi + 1)`) holds exactly the
integers of `[lo, hi]`. -/
theorem mem_intRange {lo hi k : Int} :
    k ∈ intRange lo hi ↔ lo ≤ k ∧ k ≤ hi := by
  unfold intRange
  constructor
  · intro h
    obtain ⟨n, hn, hk⟩ := List.mem_map.mp h
    rw [List.mem_range] at hn
    omega
  · intro hb
    refine List.mem_map.mpr ⟨(k - lo).toNat, ?_, ?_⟩
    · rw [List.mem_range]
      omega
    · omega

/-- `combinations k l` holds exactly the length-`k` sublists of `l`
(the subsequences `itertools.combinations` yields). -/
theorem mem_combinations {α : Type} :
    ∀ (l : List α) (k : Nat) (c : List α),
      c ∈ combinations k l ↔ c.Sublist l ∧ c.length = k := by
  intro l
  induction l with
  | nil =>
    intro k c
    cases k with
    | zero =>
      simp [combinations, List.sublist_nil, List.length_eq_zero]
    | succ k =>
      simp only [combinations, List.not_mem_nil, false_iff, not_and]
      intro hsub
      rw [List.sublist_nil] at hsub
      subst hsub
      simp
  | cons x xs ih =>
    intro k c
    cases k with
    | zero =>
      simp only [combinations, List.mem_singleton]
      constructor
      · rintro rfl
        exact ⟨List.nil_sublist _, rfl⟩
      · rintro ⟨hsub, hlen⟩
        exact List.length_eq_zero.mp hlen
    | succ k =>
      simp only [combinations, List.mem_append, List.mem_map]
      constructor
      · rintro (⟨c', hc', rfl⟩ | hmem)
        · obtain ⟨hsub, hlen⟩ := (ih k c').mp hc'
          exact ⟨List.Sublist.cons₂ x hsub, by simp [hlen]⟩
        · obtain ⟨hsub, hlen⟩ := (ih (k + 1) c).mp hmem
          exact ⟨List.Sublist.cons x hsub, hlen⟩
      · rintro ⟨hsub, hlen⟩
        cases hsub with
        | cons _ htail =>
          exact Or.inr ((ih (k + 1) c).mpr ⟨htail, hlen⟩)
        | cons₂ _ htail =>
          exact Or.inl ⟨_, (ih k _).mpr ⟨htail, by simpa using hlen⟩, rfl⟩

/-- C6: membership characterization of the candidate subject sets.
`actualPriority` retains exactly the priority subjects present in the
catalog (absent ones are dropped without error), and a list is a
candidate set iff it is the retained priority list followed by a
combination of `k` non-priority subjects for some `k` between
`max(0, min_subjects − priority_count)` and
`max_subjects − priority_count`, with the total size within
`[min_subjects, max_subjects]`. -/
theorem candidateSets_spec (catalog : List Subject) (minS maxS : Int)
    (prio : Option (List Subject)) (l : List Subject) :
    l ∈ candidateSets catalog minS maxS prio ↔
      ∃ combo : List Subject,
        combo.Sublist (nonPriorityAvailable prio catalog) ∧
        max 0 (minS - ((actualPriority prio catalog).length : Int)) ≤
          (combo.length : Int) ∧
        (combo.length : Int) ≤
          maxS - ((actualPriority prio catalog).length : Int) ∧
        l = actualPriority prio catalog ++ combo ∧
        minS ≤ (l.length : Int) ∧ (l.length : Int) ≤ maxS := by
  unfold candidateSets
  rw [List.mem_flatMap]
  constructor
  · rintro ⟨k, hk, hmem⟩
    obtain ⟨hk1, hk2⟩ := mem_intRange.mp hk
    have hk0 : (0 : Int) ≤ k := le_trans (le_max_left _ _) hk1
    rw [if_neg (by omega)] at hmem
    obtain ⟨combo, hcombo, hsome⟩ := List.mem_filterMap.mp hmem
    obtain ⟨hsub, hlen⟩ := (mem_combinations _ _ _).mp hcombo
    split at hsome
    · next hcond =>
      injection hsome with hl
      subst hl
      have hlen2 : (combo.length : Int) = k := by omega
      exact ⟨combo, hsub, by omega, by omega, rfl, hcond.1, hcond.2⟩
    · exact absurd hsome (by simp)
  · rintro ⟨combo, hsub, hlo, hhi, rfl, hmin, hmax⟩
    refine ⟨(combo.length : Int), mem_intRange.mpr ⟨hlo, hhi⟩, ?_⟩
    rw [if_neg (by omega)]
    refine List.mem_filterMap.mpr ⟨combo, ?_, ?_⟩
    · exact (mem_combinations _ _ _).mpr ⟨hsub, by omega⟩
    · rw [if_pos ⟨hmin, hmax⟩]

/-- C8 (amended): the `Event` constructor accepts any integer periods
(no range check against any grid size), and a successful placement
implies every placed period lay within Python's index range
`[−size, size)` of the grid's rows — periods in `[−size, −1]` are
accepted silently (occupying the cell `size + p`), while periods
outside `[−size, size)` make the placement fail. -/
theorem period_bounds_amended :
    (∀ (name day : String) (periods : List Int), day ∈ WEEK_DAYS →
      periods ≠ [] →
      Event.make name day periods =
        .ok ⟨name, periods.map (fun p => (day, p))⟩) ∧
    (∀ (t : Table) (s : Subject) (gname : String) (t' : Table) (n : Nat),
      (∀ r ∈ t.rows, r.length = n) →
      t.add_subject s gname = (t', none) →
      ∀ trip ∈ placeList s gname,
        -(n : Int) ≤ trip.2.1 ∧ trip.2.1 < (n : Int)) := by
  constructor
  · intro name day periods hday hne
    unfold Event.make
    rw [if_neg (not_not_intro hday), if_neg hne]
  · intro t s gname t' n hlen h trip htrip
    unfold Table.add_subject at h
    split at h
    · exact absurd (congrArg Prod.snd h) (by simp)
    · split at h
      · exact absurd (congrArg Prod.snd h) (by simp)
      · split at h
        · next t'' e'' heq =>
          exact absurd (congrArg Prod.snd h) (by simp)
        · next t'' heq =>
          obtain ⟨di, i, hphys, _⟩ := writeAll_ok_start_empty s gname
            (placeList s gname) t t'' heq trip htrip
          obtain ⟨hdi, _⟩ := Table.phys_lt hphys
          obtain ⟨_, hpi⟩ := Table.phys_some hphys
          have hmem : t.rows.getD di [] ∈ t.rows := by
            rw [List.getD_eq_getElem?_getD, List.getElem?_eq_getElem hdi,
              Option.getD_some]
            exact List.getElem_mem hdi
          rw [hlen _ hmem] at hpi
          exact pyIdx_some_bounds hpi

/-- Witness for C8 (amended): the constructor accepts `[1]` on a valid
day, and the successful placement of `subB` into a size-2 grid implies
its period 1 lies in `[−2, 2)`. -/
theorem period_bounds_amended_witness :
    Event.make "EB" "Sun" [1] = .ok ⟨"EB", [("Sun", 1)]⟩ ∧
      (-(2 : Int) ≤ (1 : Int) ∧ (1 : Int) < (2 : Int)) :=
  ⟨period_bounds_amended.1 "EB" "Sun" [1] (by decide) (by decide),
    period_bounds_amended.2 (Table.make 2) subB "g" tB 2 (by decide)
      (by decide) ("Sun", 1, "EB") (by decide)⟩

/-- C10 (amended): duplicate detection and priority membership use
Python object identity (modelled by the `id` field): a subject not
identical to any already-committed subject never triggers
`DuplicateSubject` (however value-equal it is — though the placement
may still fail with `ScheduleConflict` on overlapping cells), and a
priority subject not identical to any catalog entry is dropped from
the retained priority set. -/
theorem identity_semantics_amended :
    (∀ (t : Table) (s : Subject) (gname : String), s ∉ t.subjects →
      (t.add_subject s gname).2 ≠ some PyError.duplicateSubject) ∧
    (∀ (prio catalog : List Subject) (s : Subject), s ∉ catalog →
      s ∉ actualPriority (some prio) catalog) := by
  constructor
  · intro t s gname hs hcon
    have h : t.add_subject s gname =
        ((t.add_subject s gname).1, some PyError.duplicateSubject) :=
      Prod.ext_iff.mpr ⟨rfl, hcon⟩
    rcases add_subject_some_cases t s gname _ _ h with
      h1 | ⟨h1, hmem⟩ | h1 | h1 | h1
    · exact absurd h1 (by decide)
    · exact hs hmem
    · exact absurd h1 (by decide)
    · exact absurd h1 (by decide)
    · exact absurd h1 (by decide)
  · intro prio catalog s hs hcon
    unfold actualPriority at hcon
    rw [List.mem_filter] at hcon
    exact hs (by simpa using hcon.2)

/-- Witness for C10 (amended): the value-equal pair — re-adding
`subM2` never reports `DuplicateSubject`, and `subM2` is dropped from
the priority set over a catalog containing only `subM1`. -/
theorem identity_semantics_amended_witness :
    (tM1.add_subject subM2 "g1").2 ≠ some PyError.duplicateSubject ∧
      subM2 ∉ actualPriority (some [subM2]) [subM1] :=
  ⟨identity_semantics_amended.1 tM1 subM2 "g1" (by decide),
    identity_semantics_amended.2 [subM2] [subM1] subM2 (by decide)⟩

end Schedulify
